import Mathlib

/-!
Shallow embedding of the `segment_saver` cycle engine (src/unnamed/part_000)
of the super-parser repository.

The engine reconciles a per-track segment index against the URI of the last
segment processed in the previous cycle (`getSegmentInfoList_`), aligns the
audio and video lists, then for each aligned index fetches, merges, decrypts
and commits segments to a bounded media playlist (`processSegmentList`), and
finally paces the cycle against the last segment duration.

Modelling conventions:
* JS strings are Lean `String`, JS arrays are Lean `List`.
* Time spans / durations are modelled as `Int` (the claims do not depend on
  fractional values).
* Filesystem and network effects are abstracted: downloads always complete
  (no claim concerns download failure), the merge-files utility and the
  decryption subprocess are boolean oracles indexed by track and loop index,
  and the set of committed result files is tracked as a list of
  (isAudio, index) pairs.  Clearing the scratch directories at the end of the
  cycle is tracked by the `cleaned` flag.
* A thrown structured `error(severity, category, code)` is `Failure.structured`;
  any other JS runtime exception (e.g. dereferencing a failed regex match) is
  `Failure.unstructured`.  An aborted run carries the state observable at the
  throw site.
-/

namespace SuperParser

/-! ### Basic string helpers mirroring the JS string operations -/

/-- Split a character list at every occurrence of a separator (JS
`String.prototype.split` with a one-character separator; keeps empty
pieces, so it also evaluates inside the kernel). -/
def splitOnCharAux (sep : Char) : List Char → List Char → List (List Char)
  | [], acc => [acc.reverse]
  | c :: cs, acc =>
    if c = sep then acc.reverse :: splitOnCharAux sep cs []
    else splitOnCharAux sep cs (c :: acc)

/-- JS `segmentUrl.split('/').pop()`. -/
def lastComponent (s : String) : String :=
  String.mk ((splitOnCharAux '/' s.toList []).getLastD [])

/-- JS `path.basename(name, path.extname(name))`: strips the extension
(the part from the last dot, unless that dot is the first character). -/
def stripExt (s : String) : String :=
  let cs := s.toList
  let revAfter := cs.reverse.takeWhile (fun c => c ≠ '.')
  if revAfter.length = cs.length then s
  else
    let j := cs.length - 1 - revAfter.length
    if j = 0 then s
    else String.mk (cs.take j)

/-- Decimal digit character for `n < 10` (used to print sequence numbers). -/
def digitChar : Nat → Char
  | 0 => '0' | 1 => '1' | 2 => '2' | 3 => '3' | 4 => '4'
  | 5 => '5' | 6 => '6' | 7 => '7' | 8 => '8' | 9 => '9'
  | _ => '*'

/-- Decimal printing worker, structurally recursive on a fuel argument so
that it evaluates inside the kernel; the fuel is always sufficient when the
number is below it. -/
def natDigitsAux : Nat → Nat → List Char
  | 0, _ => []
  | fuel + 1, n =>
    if n < 10 then [digitChar n]
    else natDigitsAux fuel (n / 10) ++ [digitChar (n % 10)]

/-- Decimal printing of a natural number, as JS template interpolation does. -/
def natDigits (n : Nat) : List Char := natDigitsAux (n + 1) n

/-- Numeric value of a digit character (JS `parseInt` on a digit run). -/
def digitVal (c : Char) : Nat := c.toNat - 48

/-- JS `parseInt` applied to a string of decimal digits. -/
def digitsToNat (ds : List Char) : Nat :=
  ds.foldl (fun n c => 10 * n + digitVal c) 0

/-- The characters of the HLS media-sequence directive
`#EXT-X-MEDIA-SEQUENCE:`. -/
def mediaSeqTagL : List Char :=
  ['#', 'E', 'X', 'T', '-', 'X', '-', 'M', 'E', 'D', 'I', 'A', '-',
   'S', 'E', 'Q', 'U', 'E', 'N', 'C', 'E', ':']

/-- The media-sequence directive as a string. -/
def mediaSeqTag : String := String.mk mediaSeqTagL

/-- The characters of the segment-entry marker `#EXTINF:`. -/
def extinfTagL : List Char := ['#', 'E', 'X', 'T', 'I', 'N', 'F', ':']

/-- The segment-entry marker as a string. -/
def extinfTag : String := String.mk extinfTagL

/-- JS `String.prototype.includes`: substring test. -/
def strContains (s pat : String) : Bool :=
  decide (pat.toList <:+: s.toList)

/-- First match of the regex `#EXT-X-MEDIA-SEQUENCE:\d+` in a line, returned
as (characters before the match, matched digit run, characters after). -/
def scanSeq : List Char → Option (List Char × List Char × List Char)
  | [] => none
  | c :: cs =>
    if mediaSeqTagL.isPrefixOf (c :: cs) then
      let rest := (c :: cs).drop mediaSeqTagL.length
      let ds := rest.takeWhile Char.isDigit
      if ds.isEmpty then
        (scanSeq cs).map fun x => (c :: x.1, x.2.1, x.2.2)
      else
        some ([], ds, rest.drop ds.length)
    else
      (scanSeq cs).map fun x => (c :: x.1, x.2.1, x.2.2)

/-- A canonical media-sequence header line `#EXT-X-MEDIA-SEQUENCE:<ds>`. -/
def mkSeqLine (ds : List Char) : String := String.mk (mediaSeqTagL ++ ds)

/-! ### Track reconciler (`getSegmentInfoList_`, lines 118-167) -/

/-- One entry of `segmentIndex.references`: a top-level media reference with
its playable URI (`getUrisInner()[0]`), its time span, and the URI of its
init-segment reference (`initSegmentReference.getUris()[0]`). -/
structure SegmentReference where
  uri : String
  startTime : Int
  endTime : Int
  initUri : String
deriving DecidableEq, Repr

/-- `ref.endTime - ref.startTime`. -/
def refDur (r : SegmentReference) : Int := r.endTime - r.startTime

/-- Result of the `forEachTopLevelReference` loop: the URIs/durations pushed
after the last-processed URI was seen, and the full candidate lists. -/
structure ScanOut where
  after : List String
  afterD : List Int
  total : List String
  totalD : List Int
deriving DecidableEq, Repr

/-- The body of the `forEachTopLevelReference` loop (lines 136-149): pushes
every reference to the total lists, pushes to the output lists only once
`foundLatestName` is set, and sets the flag after the membership test, so a
matching reference itself is never pushed. -/
def scanRefs (lastSegmentURI : Option String) :
    List SegmentReference → Bool → ScanOut
  | [], _ => ⟨[], [], [], []⟩
  | r :: rest, found =>
    let segURI := r.uri
    let segDuration := refDur r
    let found' := found || (some segURI == lastSegmentURI)
    let o := scanRefs lastSegmentURI rest found'
    { after := (if found then [segURI] else []) ++ o.after
      afterD := (if found then [segDuration] else []) ++ o.afterD
      total := segURI :: o.total
      totalD := segDuration :: o.totalD }

/-- `getSegmentInfoList_` (lines 118-167): returns the (URI list, duration
list) pair for one track.  An empty reference array yields empty lists; the
init URI of the first reference always heads a non-empty result; if nothing
was collected after the scan (`segmentURIList.length == 1`, and the always
true `totalList.length >= 0`), the trailing `maxSegmentNum` candidates are
appended (`Math.max(0, len - max)` is Nat subtraction). -/
def getSegmentInfoList (maxSegmentNum : Nat) (references : List SegmentReference)
    (lastSegmentURI : Option String) : List String × List Int :=
  match references with
  | [] => ([], [])
  | r0 :: _ =>
    let o := scanRefs lastSegmentURI references false
    let segmentURIList := r0.initUri :: o.after
    let segmentDurationList := (0 : Int) :: o.afterD
    if segmentURIList.length == 1 && decide (0 ≤ o.total.length) then
      let firstIndex := o.total.length - maxSegmentNum
      (segmentURIList ++ o.total.drop firstIndex,
       segmentDurationList ++ o.totalD.drop firstIndex)
    else
      (segmentURIList, segmentDurationList)

/-! ### Playlist window maintenance (lines 268-301) -/

/-- A line/item of `mediaPlaylistTemplate` counts as a segment entry when it
contains `#EXTINF:` (line 277). -/
def isEntry (item : String) : Bool := strContains item extinfTag

/-- The `segmentItemList` collected by the `map` at lines 275-280. -/
def entryItems (pl : List String) : List String := pl.filter isEntry

/-- The new playlist item `#EXTINF:<duration>,\n<uri>` (lines 269-270). -/
def segmentTemplate (duration : Int) (uri : String) : String :=
  extinfTag ++ toString duration ++ ",\n" ++ uri

/-- The media-sequence number parsed from the head line of the playlist. -/
def headerSeq (pl : List String) : Option Nat :=
  match pl with
  | [] => none
  | h :: _ => (scanSeq h.toList).map fun x => digitsToNat x.2.1

/-- The playlist append/evict step (lines 275-301).  When the entry count
equals `maxSegmentNum` the first entry is removed (`splice(indexOf(old), 1)`
is `List.erase`), the media-sequence number is parsed from element 0 of the
spliced list and rewritten incremented, and the new entry is pushed.  `none`
models the unstructured JS exceptions of this block: `shift()` on an empty
item list followed by `undefined.split`, reading element 0 of an empty array,
or dereferencing `regEx.exec(...)` when the head line has no match. -/
def appendSegment (maxSegmentNum : Nat) (pl : List String) (tmpl : String) :
    Option (List String) :=
  let segmentItemList := entryItems pl
  if segmentItemList.length == maxSegmentNum then
    match segmentItemList with
    | [] => none
    | oldItem :: _ =>
      match pl.erase oldItem with
      | [] => none
      | h0 :: rest =>
        match scanSeq h0.toList with
        | none => none
        | some (b, ds, a) =>
          let newSequenceNumber := digitsToNat ds + 1
          let newHead := String.mk (b ++ mediaSeqTagL ++ natDigits newSequenceNumber ++ a)
          some ((newHead :: rest) ++ [tmpl])
  else
    some (pl ++ [tmpl])

/-! ### Track alignment (lines 190-199) -/

/-- `sizeOffest.natAbs` successive `pop()` calls. -/
def popN : List String → Nat → List String
  | l, 0 => l
  | l, k + 1 => (popN l k).dropLast

/-- Lines 190-199: when the URI lists differ in length, the longer URI list
is popped down to the shorter one's length.  The duration lists are not
touched by this block. -/
def alignTracks (aU vU : List String) (aD vD : List Int) :
    List String × List String × List Int × List Int :=
  if aU.length = vU.length then (aU, vU, aD, vD)
  else
    let sizeOffest : Int := (vU.length : Int) - (aU.length : Int)
    if 0 < sizeOffest then (aU, popN vU sizeOffest.natAbs, aD, vD)
    else (popN aU sizeOffest.natAbs, vU, aD, vD)

/-! ### The per-segment pipeline and cycle interpreter (lines 185-338) -/

/-- Modelled from the spec: the structured error facility (`src/util/error.js`
is not part of the sources); an error carries severity, category and code,
and the cycle only ever raises severity CRITICAL, category SEGMENT, code
SEGMENT_MANIPULATION_FAILED. -/
inductive Severity where
  | recoverable
  | critical
deriving DecidableEq, Repr

/-- Modelled from the spec: error categories (only SEGMENT is raised here). -/
inductive Category where
  | segment
  | network
  | manifest
deriving DecidableEq, Repr

/-- Modelled from the spec: stable error codes. -/
inductive ErrCode where
  | segment_manipulation_failed
deriving DecidableEq, Repr

/-- A structured error value as thrown by `new error(severity, category, code)`. -/
structure SpError where
  severity : Severity
  category : Category
  code : ErrCode
deriving DecidableEq, Repr

/-- The error thrown at lines 258-261 and 306-309. -/
def segErr : SpError :=
  ⟨Severity.critical, Category.segment, ErrCode.segment_manipulation_failed⟩

/-- A cycle abort: either a thrown structured `error`, or any other JS
runtime exception (e.g. the null dereference in the eviction branch). -/
inductive Failure where
  | structured (e : SpError)
  | unstructured
deriving DecidableEq, Repr

/-- The observable state of one cycle: the two in-memory playlists, the log
of committed (track, index) result files, the last URI seen per track
(locals `lastAudioURI` / `lastVideoURI`), and whether the scratch
directories were cleared. -/
structure CycleState where
  audioPL : List String
  videoPL : List String
  committed : List (Bool × Nat)
  lastAudio : Option String
  lastVideo : Option String
  cleaned : Bool
deriving DecidableEq, Repr

/-- Cycle configuration: the playlist capacity and the outcome oracles for
the merge-files utility and the decryption subprocess, per (track, index). -/
structure CycleCfg where
  maxSegmentNum : Nat
  mergeOk : Bool → Nat → Bool
  decryptOk : Bool → Nat → Bool

/-- Record the URI of the current segment for the given track (lines 226/233,
executed at the top of the stage, before any processing). -/
def setLastUri (isAudio : Bool) (u : String) (st : CycleState) : CycleState :=
  if isAudio then { st with lastAudio := some u }
  else { st with lastVideo := some u }

/-- The in-memory playlist of the given track. -/
def trackPL (isAudio : Bool) (st : CycleState) : List String :=
  if isAudio then st.audioPL else st.videoPL

/-- Replace the in-memory playlist of the given track. -/
def setTrackPL (isAudio : Bool) (pl : List String) (st : CycleState) : CycleState :=
  if isAudio then { st with audioPL := pl } else { st with videoPL := pl }

/-- `initFile` (line 214). -/
def initFile : String := "init.mp4"

/-- One (track, index) iteration of the inner loop (lines 219-312): set the
track's last URI, download, and unless the file name is `init.mp4`, merge
with the init payload, run the decryption subprocess, and commit the entry
to the playlist.  A failed merge or a non-zero decrypt exit throws the
structured segment error; a failed playlist append is an unstructured
exception.  The thrown branch carries the state at the throw site. -/
def processStage (cfg : CycleCfg) (isAudio : Bool) (i : Nat) (uri : String)
    (dur : Int) (st : CycleState) : Except (Failure × CycleState) CycleState :=
  let st1 := setLastUri isAudio uri st
  let segmentName := lastComponent uri
  if segmentName ≠ initFile then
    if cfg.mergeOk isAudio i then
      if cfg.decryptOk isAudio i then
        let nameOnly := stripExt segmentName
        let tmpl := segmentTemplate dur (nameOnly ++ ".mp4")
        match appendSegment cfg.maxSegmentNum (trackPL isAudio st1) tmpl with
        | some pl' =>
          .ok { setTrackPL isAudio pl' st1 with committed := st1.committed ++ [(isAudio, i)] }
        | none => .error (.unstructured, st1)
      else .error (.structured segErr, st1)
    else .error (.structured segErr, st1)
  else .ok st1

/-- One iteration of the outer loop, flattened: audio then video. -/
structure Stage where
  isAudio : Bool
  idx : Nat
  uri : String
  dur : Int
deriving DecidableEq, Repr

/-- The flattened iteration sequence of the nested loops (lines 210-313):
for `i = 0 .. n-1`, the audio stage of `i` then the video stage of `i`. -/
def stagesN (aU vU : List String) (aD vD : List Int) : Nat → List Stage
  | 0 => []
  | n + 1 =>
    stagesN aU vU aD vD n ++
      [⟨true, n, aU.getD n "", aD.getD n 0⟩, ⟨false, n, vU.getD n "", vD.getD n 0⟩]

/-- The stages actually executed by a cycle: the loops run over the aligned
URI lists (the loop bound is the audio URI list length, which equals the
video one after alignment) with the untouched duration lists. -/
def alignedStages (aU vU : List String) (aD vD : List Int) : List Stage :=
  let r := alignTracks aU vU aD vD
  stagesN r.1 r.2.1 r.2.2.1 r.2.2.2 r.1.length

/-- Run a list of stages in order, stopping at the first thrown failure. -/
def runStages (cfg : CycleCfg) :
    List Stage → CycleState → Except (Failure × CycleState) CycleState
  | [], st => .ok st
  | s :: rest, st =>
    match processStage cfg s.isAudio s.idx s.uri s.dur st with
    | .ok st' => runStages cfg rest st'
    | .error e => .error e

/-- The value of the `lastAudioURI` (`t = true`) or `lastVideoURI`
(`t = false`) local after executing a list of stages, starting from `d`:
each stage of the matching track overwrites it with its URI. -/
def lastUriAfter (t : Bool) : List Stage → Option String → Option String
  | [], d => d
  | s :: rest, d =>
    lastUriAfter t rest (if s.isAudio == t then some s.uri else d)

/-- The locals `lastAudioURI` / `lastVideoURI` start as `null` (lines
204-205) and no scratch cleanup has happened yet when a cycle begins. -/
def resetCycle (st : CycleState) : CycleState :=
  { st with lastAudio := none, lastVideo := none, cleaned := false }

/-- `processSegmentList` (lines 185-338): align, run every stage, then — only
when no stage threw — clear the scratch directories (lines 315-319, there is
no try/finally around the loop) and return the continuity token
`{ audio: lastAudioURI, video: lastVideoURI }`. -/
def processSegmentList (cfg : CycleCfg) (aU vU : List String) (aD vD : List Int)
    (st : CycleState) :
    Except (Failure × CycleState) ((Option String × Option String) × CycleState) :=
  match runStages cfg (alignedStages aU vU aD vD) (resetCycle st) with
  | .error e => .error e
  | .ok st' =>
    let st'' := { st' with cleaned := true }
    .ok ((st''.lastAudio, st''.lastVideo), st'')

/-! ### Cycle pacer (lines 321-330) -/

/-- Lines 323-329: `processPeriod = now - checkStart - updateDuration`.  When
it is below `segmentDuration * 1000`, the cycle sleeps for the difference and
the sleep amount is returned; otherwise no sleep happens. -/
def pacerSleep (elapsed updateDuration segmentDuration : Int) : Option Int :=
  let processPeriod := elapsed - updateDuration
  let segmentDurationMiliSec := segmentDuration * 1000
  if processPeriod < segmentDurationMiliSec then
    some (segmentDurationMiliSec - processPeriod)
  else none

/-! ### Projections and demo data used by concrete instances -/

/-- The state observable after a cycle, whether it completed or threw. -/
def stateOf :
    Except (Failure × CycleState) ((Option String × Option String) × CycleState) →
      CycleState
  | .error (_, st) => st
  | .ok (_, st) => st

/-- The failure of an aborted cycle, if any. -/
def cycleFailure :
    Except (Failure × CycleState) ((Option String × Option String) × CycleState) →
      Option Failure
  | .error (f, _) => some f
  | .ok _ => none

/-- The continuity token returned by a completed cycle. -/
def cycleToken :
    Except (Failure × CycleState) ((Option String × Option String) × CycleState) →
      Option (Option String × Option String)
  | .error _ => none
  | .ok (tok, _) => some tok

/-- The committed (track, index) log of a cycle, aborted or not. -/
def cycleCommitted
    (r : Except (Failure × CycleState) ((Option String × Option String) × CycleState)) :
    List (Bool × Nat) :=
  (stateOf r).committed

/-- A fresh playlist for demo runs: banner and media-sequence header. -/
def demoPL : List String := ["#EXTM3U", mkSeqLine ['0']]

/-- A fresh cycle state for demo runs. -/
def demoState : CycleState :=
  ⟨demoPL, demoPL, [], none, none, false⟩

/-- A configuration whose merge and decrypt oracles always succeed. -/
def demoCfg : CycleCfg := ⟨3, fun _ _ => true, fun _ _ => true⟩

/-- A configuration where only the video decrypt of index 1 fails. -/
def videoFailCfg : CycleCfg := ⟨3, fun _ _ => true, fun t i => t || !(i == 1)⟩

/-- A configuration whose merge step always fails. -/
def mergeFailCfg : CycleCfg := ⟨3, fun _ _ => false, fun _ _ => true⟩

/-- A small three-reference index for concrete reconciliation runs. -/
def demoRefs : List SegmentReference :=
  [⟨"a/1.mp4", 0, 4, "a/init.mp4"⟩, ⟨"a/2.mp4", 4, 8, "a/init.mp4"⟩,
   ⟨"a/3.mp4", 8, 12, "a/init.mp4"⟩]

/-! ## Helper lemmas: decimal printing and parsing -/

theorem digitVal_digitChar {k : Nat} (h : k < 10) : digitVal (digitChar k) = k := by
  interval_cases k <;> rfl

theorem digitChar_isDigit {k : Nat} (h : k < 10) : (digitChar k).isDigit = true := by
  interval_cases k <;> rfl

theorem natDigitsAux_ne_nil :
    ∀ fuel n, n < fuel → natDigitsAux fuel n ≠ [] := by
  intro fuel
  induction fuel with
  | zero => omega
  | succ fuel _ =>
    intro n _
    rw [natDigitsAux]
    split <;> simp

theorem natDigits_ne_nil (n : Nat) : natDigits n ≠ [] :=
  natDigitsAux_ne_nil (n + 1) n (by omega)

theorem natDigitsAux_all_digit :
    ∀ fuel n, n < fuel → ∀ c ∈ natDigitsAux fuel n, c.isDigit = true := by
  intro fuel
  induction fuel with
  | zero => omega
  | succ fuel ih =>
    intro n hn c hc
    rw [natDigitsAux] at hc
    split at hc
    · next h =>
      simp only [List.mem_singleton] at hc
      subst hc
      exact digitChar_isDigit h
    · next h =>
      rcases List.mem_append.mp hc with hc | hc
      · exact ih (n / 10) (by omega) c hc
      · simp only [List.mem_singleton] at hc
        subst hc
        exact digitChar_isDigit (Nat.mod_lt _ (by omega))

theorem natDigits_all_digit (n : Nat) : ∀ c ∈ natDigits n, c.isDigit = true :=
  natDigitsAux_all_digit (n + 1) n (by omega)

theorem digitsToNat_append_singleton (xs : List Char) (c : Char) :
    digitsToNat (xs ++ [c]) = 10 * digitsToNat xs + digitVal c := by
  unfold digitsToNat
  rw [List.foldl_append]
  rfl

theorem digitsToNat_natDigitsAux :
    ∀ fuel n, n < fuel → digitsToNat (natDigitsAux fuel n) = n := by
  intro fuel
  induction fuel with
  | zero => omega
  | succ fuel ih =>
    intro n hn
    rw [natDigitsAux]
    split
    · next h =>
      show 10 * 0 + digitVal (digitChar n) = n
      rw [digitVal_digitChar h]
      omega
    · next h =>
      rw [digitsToNat_append_singleton, ih (n / 10) (by omega),
        digitVal_digitChar (Nat.mod_lt _ (by omega))]
      omega

theorem digitsToNat_natDigits (n : Nat) : digitsToNat (natDigits n) = n :=
  digitsToNat_natDigitsAux (n + 1) n (by omega)

/-! ## Helper lemmas: the media-sequence scanner -/

theorem scanSeq_cons (c : Char) (cs : List Char) :
    scanSeq (c :: cs) =
      if mediaSeqTagL.isPrefixOf (c :: cs) then
        if (((c :: cs).drop mediaSeqTagL.length).takeWhile Char.isDigit).isEmpty then
          (scanSeq cs).map fun x => (c :: x.1, x.2.1, x.2.2)
        else
          some ([], ((c :: cs).drop mediaSeqTagL.length).takeWhile Char.isDigit,
            ((c :: cs).drop mediaSeqTagL.length).drop
              ((((c :: cs).drop mediaSeqTagL.length).takeWhile Char.isDigit).length))
      else (scanSeq cs).map fun x => (c :: x.1, x.2.1, x.2.2) := rfl

theorem scanSeq_canonical (ds : List Char) (h1 : ds ≠ [])
    (h2 : ∀ c ∈ ds, c.isDigit = true) :
    scanSeq (mediaSeqTagL ++ ds) = some ([], ds, []) := by
  have e : mediaSeqTagL ++ ds =
      '#' :: (['E', 'X', 'T', '-', 'X', '-', 'M', 'E', 'D', 'I', 'A', '-',
               'S', 'E', 'Q', 'U', 'E', 'N', 'C', 'E', ':'] ++ ds) := rfl
  have hpre : mediaSeqTagL.isPrefixOf
      ('#' :: (['E', 'X', 'T', '-', 'X', '-', 'M', 'E', 'D', 'I', 'A', '-',
                'S', 'E', 'Q', 'U', 'E', 'N', 'C', 'E', ':'] ++ ds)) = true := by
    rw [← e]
    exact List.isPrefixOf_iff_prefix.mpr (List.prefix_append _ _)
  have hdrop : ('#' :: (['E', 'X', 'T', '-', 'X', '-', 'M', 'E', 'D', 'I', 'A', '-',
      'S', 'E', 'Q', 'U', 'E', 'N', 'C', 'E', ':'] ++ ds)).drop mediaSeqTagL.length
      = ds := by
    rw [← e]
    exact List.drop_left _ _
  have htw : ds.takeWhile Char.isDigit = ds := List.takeWhile_eq_self_iff.mpr h2
  have hne : ds.isEmpty = false := List.isEmpty_eq_false.mpr h1
  rw [e, scanSeq_cons, if_pos hpre, hdrop, htw, hne]
  simp [List.drop_length]

/-! ## Helper lemmas: playlist entries -/

theorem toList_segmentTemplate (d : Int) (u : String) :
    (segmentTemplate d u).toList =
      [] ++ extinfTagL ++ ((toString d).toList ++ (",\n".toList ++ u.toList)) := by
  show (segmentTemplate d u).data = _
  unfold segmentTemplate
  rw [String.data_append, String.data_append, String.data_append]
  simp [String.toList, extinfTag]

theorem isEntry_segmentTemplate (d : Int) (u : String) :
    isEntry (segmentTemplate d u) = true := by
  unfold isEntry strContains
  refine decide_eq_true ?_
  rw [toList_segmentTemplate]
  exact ⟨[], _, rfl⟩

theorem mem_F_of_isEntry {s : String} (h : isEntry s = true) : 'F' ∈ s.toList := by
  unfold isEntry strContains at h
  exact (of_decide_eq_true h).subset (by decide)

theorem isEntry_mkSeqLine (ds : List Char) (h : ∀ c ∈ ds, c.isDigit = true) :
    isEntry (mkSeqLine ds) = false := by
  cases hE : isEntry (mkSeqLine ds) with
  | false => rfl
  | true =>
    exfalso
    have hF : 'F' ∈ mediaSeqTagL ++ ds := mem_F_of_isEntry hE
    rcases List.mem_append.mp hF with h' | h'
    · exact absurd h' (by decide)
    · exact absurd (h _ h') (by decide)

/-! ## Helper lemmas: track alignment -/

theorem popN_eq_take (l : List String) (k : Nat) :
    popN l k = l.take (l.length - k) := by
  induction k with
  | zero => simp [popN]
  | succ k ih =>
    rw [popN, ih, List.dropLast_eq_take, List.take_take, List.length_take]
    congr 1
    omega

/-- C6 (amended): alignment truncates the longer URI list from the end to the
shorter one's length (both become the `min`-length prefix), so the two URI
lists end up equal in length; the duration lists are left untouched, so the
per-track URI/duration equal-length invariant survives alignment only for a
track whose URI list was not truncated. -/
theorem C6_align_amended (aU vU : List String) (aD vD : List Int) :
    alignTracks aU vU aD vD =
      (aU.take (min aU.length vU.length), vU.take (min aU.length vU.length), aD, vD) ∧
    (alignTracks aU vU aD vD).1.length = (alignTracks aU vU aD vD).2.1.length := by
  have key : alignTracks aU vU aD vD =
      (aU.take (min aU.length vU.length), vU.take (min aU.length vU.length), aD, vD) := by
    unfold alignTracks
    by_cases h : aU.length = vU.length
    · rw [if_pos h]
      refine congrArg₂ Prod.mk ?_ (congrArg₂ Prod.mk ?_ rfl)
      · rw [show min aU.length vU.length = aU.length by omega, List.take_length]
      · rw [show min aU.length vU.length = vU.length by omega, List.take_length]
    · rw [if_neg h]
      by_cases h2 : (0 : Int) < (vU.length : Int) - (aU.length : Int)
      · rw [if_pos h2, popN_eq_take]
        refine congrArg₂ Prod.mk ?_ (congrArg₂ Prod.mk ?_ rfl)
        · rw [show min aU.length vU.length = aU.length by omega, List.take_length]
        · congr 1
          omega
      · rw [if_neg h2, popN_eq_take]
        refine congrArg₂ Prod.mk ?_ (congrArg₂ Prod.mk ?_ rfl)
        · congr 1
          omega
        · rw [show min aU.length vU.length = vU.length by omega, List.take_length]
  refine ⟨key, ?_⟩
  rw [key]
  simp only [List.length_take]
  omega

/-- C6 counterexample: with audio URIs `["i"]`, video URIs `["i","s"]` and
duration lists `[0]` and `[0,5]`, alignment truncates the video URI list to
`["i"]` but leaves the video duration list `[0,5]`, so after alignment the
truncated track's URI and duration lists do NOT have equal length, contrary
to the claim that the TrackState invariant is preserved. -/
theorem C6_counterexample :
    (alignTracks ["i"] ["i", "s"] [0] [0, 5]).2.1 = ["i"] ∧
    (alignTracks ["i"] ["i", "s"] [0] [0, 5]).2.2.2 = [0, 5] ∧
    (alignTracks ["i"] ["i", "s"] [0] [0, 5]).2.2.2.length ≠
      (alignTracks ["i"] ["i", "s"] [0] [0, 5]).2.1.length := by
  refine ⟨rfl, rfl, ?_⟩
  decide

/-- C8: the pacer computes `slack = segmentDuration*1000 - (elapsed -
updateDuration)`; when the slack is positive the cycle sleeps for exactly
that many milliseconds, otherwise it does not sleep. -/
theorem C8_pacer (elapsed updateDuration segmentDuration : Int) :
    (0 < segmentDuration * 1000 - (elapsed - updateDuration) →
      pacerSleep elapsed updateDuration segmentDuration =
        some (segmentDuration * 1000 - (elapsed - updateDuration))) ∧
    (segmentDuration * 1000 - (elapsed - updateDuration) ≤ 0 →
      pacerSleep elapsed updateDuration segmentDuration = none) := by
  unfold pacerSleep
  constructor <;> intro h
  · rw [if_pos (by omega)]
  · rw [if_neg (by omega)]

/-- C8 witness (Scenario D): 400 ms elapsed, 2000 ms nominal update duration
and a 6 s segment give a 7600 ms sleep. -/
theorem C8_pacer_witness : pacerSleep 400 2000 6 = some 7600 := by
  have h := (C8_pacer 400 2000 6).1 (by decide)
  simpa using h

/-! ## Helper lemmas: the reconciler scan -/

theorem scanRefs_found (u : Option String) (l : List SegmentReference) :
    scanRefs u l true =
      ⟨l.map (·.uri), l.map refDur, l.map (·.uri), l.map refDur⟩ := by
  induction l with
  | nil => rfl
  | cons r rest ih => simp [scanRefs, ih]

theorem scanRefs_not_found (u : Option String) (l : List SegmentReference)
    (h : ∀ r ∈ l, (some r.uri == u) = false) :
    scanRefs u l false = ⟨[], [], l.map (·.uri), l.map refDur⟩ := by
  induction l with
  | nil => rfl
  | cons r rest ih =>
    have hr := h r (by simp)
    simp [scanRefs, hr, ih fun r' hr' => h r' (by simp [hr'])]

theorem scanRefs_split (u : Option String) (pre l : List SegmentReference)
    (h : ∀ r ∈ pre, (some r.uri == u) = false) :
    scanRefs u (pre ++ l) false =
      ⟨(scanRefs u l false).after, (scanRefs u l false).afterD,
       pre.map (·.uri) ++ (scanRefs u l false).total,
       pre.map refDur ++ (scanRefs u l false).totalD⟩ := by
  induction pre with
  | nil => simp
  | cons r rest ih =>
    have hr := h r (by simp)
    simp [scanRefs, hr, ih fun r' hr' => h r' (by simp [hr'])]

/-- C2: a track with an empty reference array reconciles to empty lists (the
track is skipped); a non-empty one always yields the first reference's init
URI with duration 0 in front; and when the last-processed URI is null or
matches no top-level reference, the rest of the output is exactly the
trailing `min(n, maxSegmentNum)` candidates of the index, in order. -/
theorem C2_reconcile (maxSegmentNum : Nat) (references : List SegmentReference)
    (last : Option String) :
    (references = [] → getSegmentInfoList maxSegmentNum references last = ([], [])) ∧
    (∀ r0 rest, references = r0 :: rest →
      (getSegmentInfoList maxSegmentNum references last).1.head? = some r0.initUri ∧
      (getSegmentInfoList maxSegmentNum references last).2.head? = some (0 : Int)) ∧
    ((last = none ∨ ∀ r ∈ references, some r.uri ≠ last) →
      ∀ r0 rest, references = r0 :: rest →
      getSegmentInfoList maxSegmentNum references last =
        (r0.initUri ::
            (references.map (·.uri)).drop (references.length - maxSegmentNum),
         (0 : Int) ::
            (references.map refDur).drop (references.length - maxSegmentNum)) ∧
      ((references.map (·.uri)).drop (references.length - maxSegmentNum)).length
        = min references.length maxSegmentNum) := by
  refine ⟨fun h => by subst h; rfl, ?_, ?_⟩
  · rintro r0 rest rfl
    unfold getSegmentInfoList
    split
    · next heq => simp at heq
    · next heq =>
      cases heq
      dsimp only
      split <;> simp
  · intro hmiss r0 rest hrefs
    have hbeq : ∀ r ∈ references, (some r.uri == last) = false := by
      intro r hr
      rcases hmiss with h | h
      · subst h; rfl
      · exact beq_eq_false_iff_ne.mpr (h r hr)
    have hscan := scanRefs_not_found last references hbeq
    subst hrefs
    constructor
    · unfold getSegmentInfoList
      rw [hscan]
      simp [List.length_drop]
    · simp [List.length_drop]
      omega

/-- C2 witness: concrete cold-start, non-empty-head and empty-index runs. -/
theorem C2_reconcile_witness :
    getSegmentInfoList 2 demoRefs none =
      (["a/init.mp4", "a/2.mp4", "a/3.mp4"], ([0, 4, 4] : List Int)) ∧
    (getSegmentInfoList 2 demoRefs none).1.head? = some "a/init.mp4" ∧
    getSegmentInfoList 2 [] none = ([], []) := by
  refine ⟨?_, ?_, (C2_reconcile 2 [] none).1 rfl⟩
  · have h := ((C2_reconcile 2 demoRefs none).2.2 (Or.inl rfl) _ _ rfl).1
    exact h.trans (by decide)
  · exact ((C2_reconcile 2 demoRefs none).2.1 _ _ rfl).1

/-- C1 (amended): when the last-processed URI first occurs at a non-final
top-level reference, reconciliation returns the init element followed by
exactly the references strictly after that occurrence, in index order (no
gaps, no duplicates).  When the first occurrence is the final reference,
nothing is collected after it and the always-enabled trailing-window
fallback fires instead, so the output is NOT the init element alone. -/
theorem C1_reconcile_amended (maxSegmentNum : Nat) (pre post : List SegmentReference)
    (m : SegmentReference) (hpre : ∀ r ∈ pre, r.uri ≠ m.uri) (hpost : post ≠ []) :
    ∀ r0 rest, pre ++ m :: post = r0 :: rest →
    getSegmentInfoList maxSegmentNum (pre ++ m :: post) (some m.uri) =
      (r0.initUri :: post.map (·.uri), (0 : Int) :: post.map refDur) := by
  intro r0 rest hrefs
  have hbeq : ∀ r ∈ pre, (some r.uri == some m.uri) = false := fun r hr =>
    beq_eq_false_iff_ne.mpr (by simpa using hpre r hr)
  have hmid : scanRefs (some m.uri) (m :: post) false =
      ⟨post.map (·.uri), post.map refDur,
       m.uri :: post.map (·.uri), refDur m :: post.map refDur⟩ := by
    simp [scanRefs, scanRefs_found]
  have hscan : scanRefs (some m.uri) (pre ++ m :: post) false =
      ⟨post.map (·.uri), post.map refDur,
       pre.map (·.uri) ++ m.uri :: post.map (·.uri),
       pre.map refDur ++ refDur m :: post.map refDur⟩ := by
    rw [scanRefs_split (some m.uri) pre (m :: post) hbeq, hmid]
  rw [hrefs] at hscan
  rw [hrefs]
  unfold getSegmentInfoList
  rw [hscan]
  rcases hp : post.map (·.uri) with _ | ⟨q, qs⟩
  · exact absurd (List.map_eq_nil_iff.mp hp) hpost
  · have hlen : (qs.length + 1 + 1 == 1) = false := beq_eq_false_iff_ne.mpr (by omega)
    simp [hp, hlen]

/-- C1 witness: last-processed URI matches the first of three references, so
the output is the init element plus the two strictly-later references. -/
theorem C1_reconcile_amended_witness :
    getSegmentInfoList 3 demoRefs (some "a/1.mp4") =
      (["a/init.mp4", "a/2.mp4", "a/3.mp4"], ([0, 4, 4] : List Int)) := by
  have h := C1_reconcile_amended 3 []
      [⟨"a/2.mp4", 4, 8, "a/init.mp4"⟩, ⟨"a/3.mp4", 8, 12, "a/init.mp4"⟩]
      ⟨"a/1.mp4", 0, 4, "a/init.mp4"⟩ (by simp) (by simp) _ _ rfl
  exact h.trans (by decide)

/-! ## Helper lemmas: playlist eviction -/

theorem filter_erase_head {p : String → Bool} :
    ∀ (l : List String) (a : String) (t : List String),
      l.filter p = a :: t → (l.erase a).filter p = t := by
  intro l
  induction l with
  | nil => intro a t h; simp at h
  | cons c l' ih =>
    intro a t h
    by_cases hc : p c = true
    · rw [List.filter_cons_of_pos hc] at h
      injection h with h1 h2
      subst h1
      rw [List.erase_cons_head, h2]
    · rw [List.filter_cons_of_neg hc] at h
      have ha : p a = true := by
        have : a ∈ l'.filter p := h ▸ List.mem_cons_self a t
        exact (List.mem_filter.mp this).2
      have hca : (c == a) = false :=
        beq_eq_false_iff_ne.mpr fun e => by rw [e] at hc; exact hc ha
      rw [List.erase_cons_tail (by simp [hca]), List.filter_cons_of_neg hc]
      exact ih a t h

/-- C10: the eviction branch parses the media-sequence number only from
element 0 of the spliced line sequence and dereferences the match without a
null check.  When the directive is not on that first element — even though it
is present on a later line — any eviction-triggering append fails with the
unstructured exception rather than completing or raising the structured
segment error. -/
theorem C10_eviction_header (maxSegmentNum : Nat) (h0 : String)
    (rest : List String)
    (hent : isEntry h0 = false)
    (hseq : scanSeq h0.toList = none)
    (hcnt : (entryItems (h0 :: rest)).length = maxSegmentNum)
    (hpos : 0 < maxSegmentNum)
    (helse : ∃ l ∈ rest, (scanSeq l.toList).isSome = true) :
    (∀ tmpl, appendSegment maxSegmentNum (h0 :: rest) tmpl = none) ∧
    (∀ (cfg : CycleCfg) (i : Nat) (uri : String) (dur : Int) (st : CycleState),
      cfg.maxSegmentNum = maxSegmentNum →
      st.audioPL = h0 :: rest →
      lastComponent uri ≠ initFile →
      cfg.mergeOk true i = true → cfg.decryptOk true i = true →
      processStage cfg true i uri dur st =
        .error (.unstructured, setLastUri true uri st)) := by
  have happ : ∀ tmpl, appendSegment maxSegmentNum (h0 :: rest) tmpl = none := by
    intro tmpl
    rcases hl : entryItems (h0 :: rest) with _ | ⟨old, tl⟩
    · rw [hl] at hcnt
      simp at hcnt
      omega
    · have hold_entry : isEntry old = true := by
        have : old ∈ entryItems (h0 :: rest) := hl ▸ List.mem_cons_self _ _
        exact (List.mem_filter.mp this).2
      have hne : (h0 == old) = false :=
        beq_eq_false_iff_ne.mpr fun e => by
          rw [← e] at hold_entry; rw [hent] at hold_entry; cases hold_entry
      have herase : (h0 :: rest).erase old = h0 :: rest.erase old :=
        List.erase_cons_tail (by simp [hne])
      have hbeq : ((old :: tl).length == maxSegmentNum) = true := by
        rw [← hl, hcnt]
        exact beq_self_eq_true _
      unfold appendSegment
      simp only [hl, hbeq, if_true, herase, hseq]
  refine ⟨happ, ?_⟩
  intro cfg i uri dur st hmax hpl hname hmerge hdecrypt
  unfold processStage
  rw [if_pos hname, if_pos hmerge, if_pos hdecrypt]
  have htr : trackPL true (setLastUri true uri st) = h0 :: rest := by
    rw [← hpl]
    rfl
  rw [htr, hmax]
  dsimp only
  rw [happ]

/-- C10 witness: a playlist whose banner heads the lines while the directive
sits on the second line; an eviction-triggering append returns the
unstructured failure, and the corresponding pipeline stage aborts with
`Failure.unstructured`. -/
theorem C10_eviction_header_witness :
    appendSegment 1 ["#EXTM3U", mkSeqLine ['4'], segmentTemplate 4 "001.mp4"]
      (segmentTemplate 5 "002.mp4") = none ∧
    processStage ⟨1, fun _ _ => true, fun _ _ => true⟩ true 0 "a/002.mp4" 5
        ⟨["#EXTM3U", mkSeqLine ['4'], segmentTemplate 4 "001.mp4"], [], [],
          none, none, false⟩ =
      .error (.unstructured,
        ⟨["#EXTM3U", mkSeqLine ['4'], segmentTemplate 4 "001.mp4"], [], [],
          some "a/002.mp4", none, false⟩) := by
  have h := C10_eviction_header 1 "#EXTM3U"
      [mkSeqLine ['4'], segmentTemplate 4 "001.mp4"]
      (by decide) (by decide) (by decide) (by decide)
      ⟨mkSeqLine ['4'], by simp, by decide⟩
  refine ⟨h.1 _, ?_⟩
  exact h.2 ⟨1, fun _ _ => true, fun _ _ => true⟩ 0 "a/002.mp4" 5 _
    rfl rfl (by decide) rfl rfl

/-- C3: appending `(duration, filename)` to a playlist headed by a canonical
media-sequence header line, with entry count at most `maxSegmentNum`
beforehand: the append completes, the entry count stays at most
`maxSegmentNum`; when the count already equalled `maxSegmentNum` exactly the
oldest entry is removed from the line sequence (the line count is unchanged
and the surviving entries are the old ones minus the first, plus the new
one) and the header integer increases by exactly 1; when the count was below
`maxSegmentNum` nothing is removed and the header is unchanged. -/
theorem C3_append_window (maxSegmentNum : Nat) (ds : List Char)
    (rest : List String) (d : Int) (u : String)
    (hds : ds ≠ []) (hdig : ∀ c ∈ ds, c.isDigit = true)
    (hpos : 0 < maxSegmentNum)
    (hcnt : (entryItems (mkSeqLine ds :: rest)).length ≤ maxSegmentNum) :
    ∃ pl',
      appendSegment maxSegmentNum (mkSeqLine ds :: rest) (segmentTemplate d u)
        = some pl' ∧
      (entryItems pl').length ≤ maxSegmentNum ∧
      headerSeq (mkSeqLine ds :: rest) = some (digitsToNat ds) ∧
      ((entryItems (mkSeqLine ds :: rest)).length = maxSegmentNum →
        entryItems pl' =
          (entryItems (mkSeqLine ds :: rest)).tail ++ [segmentTemplate d u] ∧
        pl'.length = (mkSeqLine ds :: rest).length ∧
        headerSeq pl' = some (digitsToNat ds + 1)) ∧
      ((entryItems (mkSeqLine ds :: rest)).length < maxSegmentNum →
        pl' = (mkSeqLine ds :: rest) ++ [segmentTemplate d u] ∧
        headerSeq pl' = headerSeq (mkSeqLine ds :: rest)) := by
  have hE : isEntry (mkSeqLine ds) = false := isEntry_mkSeqLine ds hdig
  have hEI : entryItems (mkSeqLine ds :: rest) = entryItems rest := by
    unfold entryItems
    rw [List.filter_cons_of_neg (by simp [hE])]
  have hhdr : headerSeq (mkSeqLine ds :: rest) = some (digitsToNat ds) := by
    show (scanSeq (mkSeqLine ds).toList).map (fun x => digitsToNat x.2.1) = _
    rw [show (mkSeqLine ds).toList = mediaSeqTagL ++ ds from rfl,
      scanSeq_canonical ds hds hdig]
    rfl
  rcases Nat.lt_or_eq_of_le hcnt with hlt | heq
  · -- below capacity: plain push, no eviction, header untouched
    have hbeq : ((entryItems (mkSeqLine ds :: rest)).length == maxSegmentNum)
        = false := beq_eq_false_iff_ne.mpr (by omega)
    refine ⟨(mkSeqLine ds :: rest) ++ [segmentTemplate d u], ?_, ?_, hhdr,
      fun habs => absurd habs (by omega), fun _ => ⟨rfl, ?_⟩⟩
    · unfold appendSegment
      simp only [hbeq, Bool.false_eq_true, if_false]
    · have hlt' : (List.filter isEntry (mkSeqLine ds :: rest)).length
          < maxSegmentNum := hlt
      unfold entryItems
      rw [List.filter_append]
      simp [isEntry_segmentTemplate]
      omega
    · rfl
  · -- at capacity: evict the oldest entry and advance the header
    obtain ⟨old, tl, hol⟩ :
        ∃ old tl, entryItems (mkSeqLine ds :: rest) = old :: tl := by
      rcases h : entryItems (mkSeqLine ds :: rest) with _ | ⟨o, t⟩
      · rw [h] at heq
        simp at heq
        omega
      · exact ⟨o, t, rfl⟩
    have hold_entry : isEntry old = true := by
      have : old ∈ entryItems (mkSeqLine ds :: rest) :=
        hol ▸ List.mem_cons_self _ _
      exact (List.mem_filter.mp this).2
    have hne : (mkSeqLine ds == old) = false :=
      beq_eq_false_iff_ne.mpr fun e => by
        rw [← e] at hold_entry; rw [hE] at hold_entry; cases hold_entry
    have herase : (mkSeqLine ds :: rest).erase old = mkSeqLine ds :: rest.erase old :=
      List.erase_cons_tail (by simp [hne])
    have hfil : (rest.erase old).filter isEntry = tl :=
      filter_erase_head rest old tl (hEI.symm.trans hol)
    have holdmem : old ∈ rest := by
      have : old ∈ entryItems rest := by
        rw [← hEI, hol]
        exact List.mem_cons_self _ _
      exact (List.mem_filter.mp this).1
    have hbeq : ((old :: tl).length == maxSegmentNum) = true := by
      rw [← hol, heq]
      exact beq_self_eq_true _
    set newLine := mkSeqLine (natDigits (digitsToNat ds + 1)) with hnew
    have hnewE : isEntry newLine = false :=
      isEntry_mkSeqLine _ (natDigits_all_digit _)
    have happ : appendSegment maxSegmentNum (mkSeqLine ds :: rest)
        (segmentTemplate d u) =
        some ((newLine :: rest.erase old) ++ [segmentTemplate d u]) := by
      unfold appendSegment
      simp only [hol, hbeq, if_true, herase,
        show (mkSeqLine ds).toList = mediaSeqTagL ++ ds from rfl,
        scanSeq_canonical ds hds hdig]
      rw [hnew]
      unfold mkSeqLine
      simp
    have hent' : entryItems ((newLine :: rest.erase old) ++ [segmentTemplate d u])
        = tl ++ [segmentTemplate d u] := by
      unfold entryItems
      rw [List.filter_append, List.filter_cons_of_neg (by simp [hnewE]), hfil,
        List.filter_cons_of_pos (by simp [isEntry_segmentTemplate]),
        List.filter_nil]
    refine ⟨(newLine :: rest.erase old) ++ [segmentTemplate d u], happ, ?_, hhdr,
      fun _ => ⟨?_, ?_, ?_⟩, fun habs => absurd habs (by omega)⟩
    · rw [hent']
      have : tl.length + 1 = maxSegmentNum := by
        have := heq
        rw [hol] at this
        simpa using this
      simp
      omega
    · rw [hent', hol]
      rfl
    · have hlen : (rest.erase old).length + 1 = rest.length :=
        List.length_erase_add_one holdmem
      simp only [List.length_append, List.length_cons, List.length_nil]
      omega
    · show (scanSeq newLine.toList).map (fun x => digitsToNat x.2.1) = _
      rw [show newLine.toList = mediaSeqTagL ++ natDigits (digitsToNat ds + 1) from rfl,
        scanSeq_canonical _ (natDigits_ne_nil _) (natDigits_all_digit _)]
      simp [digitsToNat_natDigits]

/-- C3 witness: a one-entry playlist at capacity 1 with header 7 evicts its
entry, advances the header to 8 and carries the new entry. -/
theorem C3_append_window_witness :
    appendSegment 1 [mkSeqLine ['7'], segmentTemplate 4 "001.mp4"]
        (segmentTemplate 5 "002.mp4") =
      some [mkSeqLine ['8'], segmentTemplate 5 "002.mp4"] ∧
    headerSeq [mkSeqLine ['8'], segmentTemplate 5 "002.mp4"] = some 8 := by
  obtain ⟨pl', h1, _, _, h4, _⟩ :=
    C3_append_window 1 ['7'] [segmentTemplate 4 "001.mp4"] 5 "002.mp4"
      (by decide) (by decide) (by decide) (by decide)
  obtain ⟨_, _, h8⟩ := h4 (by decide)
  have e : appendSegment 1 [mkSeqLine ['7'], segmentTemplate 4 "001.mp4"]
      (segmentTemplate 5 "002.mp4") =
      some [mkSeqLine ['8'], segmentTemplate 5 "002.mp4"] := by decide
  have hpl : pl' = [mkSeqLine ['8'], segmentTemplate 5 "002.mp4"] := by
    rw [h1] at e
    exact Option.some_inj.mp e
  refine ⟨e, ?_⟩
  rw [← hpl, h8]
  rfl

/-- C1 counterexample: when the last-processed URI is the FINAL top-level
reference the claim demands the init element alone, but because nothing is
collected after the match the trailing-window fallback fires and re-emits
the already-processed final reference. -/
theorem C1_counterexample :
    getSegmentInfoList 3 [⟨"a/1.mp4", 0, 4, "a/init.mp4"⟩] (some "a/1.mp4") =
      (["a/init.mp4", "a/1.mp4"], ([0, 4] : List Int)) ∧
    getSegmentInfoList 3 [⟨"a/1.mp4", 0, 4, "a/init.mp4"⟩] (some "a/1.mp4") ≠
      (["a/init.mp4"], ([0] : List Int)) := by
  constructor
  · decide
  · decide

/-! ## Helper lemmas: the stage interpreter -/

theorem processStage_init (cfg : CycleCfg) (t : Bool) (i : Nat) (uri : String)
    (dur : Int) (st : CycleState) (hname : lastComponent uri = initFile) :
    processStage cfg t i uri dur st = .ok (setLastUri t uri st) := by
  unfold processStage
  rw [if_neg (by simp [hname])]

theorem processStage_commit (cfg : CycleCfg) (t : Bool) (i : Nat) (uri : String)
    (dur : Int) (st : CycleState)
    (hname : lastComponent uri ≠ initFile)
    (hmerge : cfg.mergeOk t i = true) (hdec : cfg.decryptOk t i = true)
    (pl' : List String)
    (happ : appendSegment cfg.maxSegmentNum (trackPL t (setLastUri t uri st))
      (segmentTemplate dur (stripExt (lastComponent uri) ++ ".mp4")) = some pl') :
    processStage cfg t i uri dur st =
      .ok { setTrackPL t pl' (setLastUri t uri st) with
              committed := (setLastUri t uri st).committed ++ [(t, i)] } := by
  unfold processStage
  rw [if_pos hname, if_pos hmerge, if_pos hdec]
  dsimp only
  rw [happ]

theorem processStage_fail (cfg : CycleCfg) (t : Bool) (i : Nat) (uri : String)
    (dur : Int) (st : CycleState)
    (hname : lastComponent uri ≠ initFile)
    (hfail : cfg.mergeOk t i = false ∨ cfg.decryptOk t i = false) :
    processStage cfg t i uri dur st =
      .error (.structured segErr, setLastUri t uri st) := by
  unfold processStage
  rw [if_pos hname]
  rcases hfail with h | h
  · rw [if_neg (by simp [h])]
  · by_cases hm : cfg.mergeOk t i = true
    · rw [if_pos hm, if_neg (by simp [h])]
    · rw [if_neg hm]

theorem processStage_append_none (cfg : CycleCfg) (t : Bool) (i : Nat)
    (uri : String) (dur : Int) (st : CycleState)
    (hname : lastComponent uri ≠ initFile)
    (hmerge : cfg.mergeOk t i = true) (hdec : cfg.decryptOk t i = true)
    (happ : appendSegment cfg.maxSegmentNum (trackPL t (setLastUri t uri st))
      (segmentTemplate dur (stripExt (lastComponent uri) ++ ".mp4")) = none) :
    processStage cfg t i uri dur st =
      .error (.unstructured, setLastUri t uri st) := by
  unfold processStage
  rw [if_pos hname, if_pos hmerge, if_pos hdec]
  dsimp only
  rw [happ]

theorem processStage_ok_shape (cfg : CycleCfg) (t : Bool) (i : Nat) (uri : String)
    (dur : Int) (st st' : CycleState)
    (h : processStage cfg t i uri dur st = .ok st') :
    st' = setLastUri t uri st ∨
    ∃ pl', st' = { setTrackPL t pl' (setLastUri t uri st) with
                     committed := (setLastUri t uri st).committed ++ [(t, i)] } := by
  by_cases hn : lastComponent uri = initFile
  · rw [processStage_init cfg t i uri dur st hn] at h
    injection h with h'
    exact Or.inl h'.symm
  · by_cases hm : cfg.mergeOk t i = true
    · by_cases hd : cfg.decryptOk t i = true
      · cases happ : appendSegment cfg.maxSegmentNum (trackPL t (setLastUri t uri st))
            (segmentTemplate dur (stripExt (lastComponent uri) ++ ".mp4")) with
        | some pl' =>
          rw [processStage_commit cfg t i uri dur st hn hm hd pl' happ] at h
          injection h with h'
          exact Or.inr ⟨pl', h'.symm⟩
        | none =>
          rw [processStage_append_none cfg t i uri dur st hn hm hd happ] at h
          exact Except.noConfusion h
      · rw [processStage_fail cfg t i uri dur st hn (Or.inr (by simpa using hd))] at h
        exact Except.noConfusion h
    · rw [processStage_fail cfg t i uri dur st hn (Or.inl (by simpa using hm))] at h
      exact Except.noConfusion h

theorem processStage_error_shape (cfg : CycleCfg) (t : Bool) (i : Nat)
    (uri : String) (dur : Int) (st : CycleState) (f : Failure) (st₁ : CycleState)
    (h : processStage cfg t i uri dur st = .error (f, st₁)) :
    st₁ = setLastUri t uri st := by
  by_cases hn : lastComponent uri = initFile
  · rw [processStage_init cfg t i uri dur st hn] at h
    exact Except.noConfusion h
  · by_cases hm : cfg.mergeOk t i = true
    · by_cases hd : cfg.decryptOk t i = true
      · cases happ : appendSegment cfg.maxSegmentNum (trackPL t (setLastUri t uri st))
            (segmentTemplate dur (stripExt (lastComponent uri) ++ ".mp4")) with
        | some pl' =>
          rw [processStage_commit cfg t i uri dur st hn hm hd pl' happ] at h
          exact Except.noConfusion h
        | none =>
          rw [processStage_append_none cfg t i uri dur st hn hm hd happ] at h
          injection h with h'
          exact (((Prod.mk.injEq _ _ _ _).mp h').2).symm
      · rw [processStage_fail cfg t i uri dur st hn (Or.inr (by simpa using hd))] at h
        injection h with h'
        exact (((Prod.mk.injEq _ _ _ _).mp h').2).symm
    · rw [processStage_fail cfg t i uri dur st hn (Or.inl (by simpa using hm))] at h
      injection h with h'
      exact (((Prod.mk.injEq _ _ _ _).mp h').2).symm

theorem setLastUri_fields (t : Bool) (u : String) (st : CycleState) :
    (setLastUri t u st).cleaned = st.cleaned ∧
    (setLastUri t u st).committed = st.committed ∧
    (setLastUri t u st).audioPL = st.audioPL ∧
    (setLastUri t u st).videoPL = st.videoPL ∧
    (setLastUri t u st).lastAudio = (if t then some u else st.lastAudio) ∧
    (setLastUri t u st).lastVideo = (if t then st.lastVideo else some u) := by
  cases t <;> simp [setLastUri]

theorem processStage_ok_tracked (cfg : CycleCfg) (t : Bool) (i : Nat)
    (uri : String) (dur : Int) (st st' : CycleState)
    (h : processStage cfg t i uri dur st = .ok st') :
    st'.cleaned = st.cleaned ∧
    st'.lastAudio = (if t then some uri else st.lastAudio) ∧
    st'.lastVideo = (if t then st.lastVideo else some uri) := by
  rcases processStage_ok_shape cfg t i uri dur st st' h with rfl | ⟨pl', rfl⟩ <;>
    cases t <;> simp [setLastUri, setTrackPL]

theorem runStages_append (cfg : CycleCfg) (xs ys : List Stage) (st : CycleState) :
    runStages cfg (xs ++ ys) st =
      match runStages cfg xs st with
      | .ok st' => runStages cfg ys st'
      | .error e => .error e := by
  induction xs generalizing st with
  | nil => rfl
  | cons s xs ih =>
    simp only [List.cons_append, runStages]
    cases h : processStage cfg s.isAudio s.idx s.uri s.dur st <;> simp [ih]

theorem runStages_error_cleaned (cfg : CycleCfg) :
    ∀ (ss : List Stage) (st : CycleState) (f : Failure) (st₁ : CycleState),
      runStages cfg ss st = .error (f, st₁) → st₁.cleaned = st.cleaned := by
  intro ss
  induction ss with
  | nil => intro st f st₁ h; exact Except.noConfusion h
  | cons s rest ih =>
    intro st f st₁ h
    unfold runStages at h
    cases hp : processStage cfg s.isAudio s.idx s.uri s.dur st with
    | ok st'' =>
      rw [hp] at h
      exact (ih st'' f st₁ h).trans
        (processStage_ok_tracked cfg _ _ _ _ st st'' hp).1
    | error e =>
      rw [hp] at h
      injection h with h'
      subst h'
      rw [processStage_error_shape cfg _ _ _ _ st f st₁ hp]
      exact (setLastUri_fields _ _ st).1

theorem runStages_ok_tracked (cfg : CycleCfg) :
    ∀ (ss : List Stage) (st st' : CycleState),
      runStages cfg ss st = .ok st' →
      st'.cleaned = st.cleaned ∧
      st'.lastAudio = lastUriAfter true ss st.lastAudio ∧
      st'.lastVideo = lastUriAfter false ss st.lastVideo := by
  intro ss
  induction ss with
  | nil =>
    intro st st' h
    injection h with h'
    subst h'
    exact ⟨rfl, rfl, rfl⟩
  | cons s rest ih =>
    intro st st' h
    unfold runStages at h
    cases hp : processStage cfg s.isAudio s.idx s.uri s.dur st with
    | ok st'' =>
      rw [hp] at h
      obtain ⟨hc, ha, hv⟩ := ih st'' st' h
      obtain ⟨hc', ha', hv'⟩ := processStage_ok_tracked cfg _ _ _ _ st st'' hp
      refine ⟨hc.trans hc', ?_, ?_⟩
      · rw [ha, ha']
        show lastUriAfter true rest _ =
          lastUriAfter true rest (if s.isAudio == true then some s.uri else st.lastAudio)
        cases s.isAudio <;> rfl
      · rw [hv, hv']
        show lastUriAfter false rest _ =
          lastUriAfter false rest (if s.isAudio == false then some s.uri else st.lastVideo)
        cases s.isAudio <;> rfl
    | error e =>
      rw [hp] at h
      exact Except.noConfusion h

theorem lastUriAfter_append (t : Bool) (xs ys : List Stage) (d : Option String) :
    lastUriAfter t (xs ++ ys) d = lastUriAfter t ys (lastUriAfter t xs d) := by
  induction xs generalizing d with
  | nil => rfl
  | cons s xs ih => simp [lastUriAfter, ih]

theorem lastUriAfter_stagesN (t : Bool) (aU vU : List String) (aD vD : List Int) :
    ∀ (n : Nat) (d : Option String),
      lastUriAfter t (stagesN aU vU aD vD n) d =
        if n = 0 then d else some ((if t then aU else vU).getD (n - 1) "") := by
  intro n
  induction n with
  | zero => intro d; rfl
  | succ n _ =>
    intro d
    rw [stagesN, lastUriAfter_append]
    cases t <;> simp [lastUriAfter]

theorem getD_last_eq_getLast? (l : List String) :
    (if l.length = 0 then (none : Option String)
      else some (l.getD (l.length - 1) "")) = l.getLast? := by
  cases l with
  | nil => rfl
  | cons a as =>
    rw [if_neg (by simp)]
    have hlt : (a :: as).length - 1 < (a :: as).length := by simp
    rw [List.getD_eq_getElem?_getD, List.getLast?_eq_getElem?,
      List.getElem?_eq_getElem hlt]
    rfl

/-- C4 (amended): when every stage strictly before a stage `s` (in the
audio-before-video, index-increasing order) succeeds and stage `s` — whose
file is not the init file — hits a merge failure or a non-zero decryption
exit, the cycle aborts with the structured error of severity CRITICAL,
category SEGMENT, code SEGMENT_MANIPULATION_FAILED; the observable state is
exactly the state after the earlier stages with only the failing track's
last-URI local updated: no playlist entry or commit is produced for the
failing stage, everything committed by earlier stages (which may include the
other track's entry at the same index) is intact, and the stages after `s`
are never run (the result does not depend on them). -/
theorem C4_abort (cfg : CycleCfg) (aU vU : List String) (aD vD : List Int)
    (st st1 : CycleState) (pre post : List Stage) (s : Stage)
    (hstages : alignedStages aU vU aD vD = pre ++ s :: post)
    (hpre : runStages cfg pre (resetCycle st) = .ok st1)
    (hname : lastComponent s.uri ≠ initFile)
    (hfail : cfg.mergeOk s.isAudio s.idx = false ∨
      cfg.decryptOk s.isAudio s.idx = false) :
    processSegmentList cfg aU vU aD vD st =
      .error (.structured segErr, setLastUri s.isAudio s.uri st1) ∧
    (setLastUri s.isAudio s.uri st1).committed = st1.committed ∧
    (setLastUri s.isAudio s.uri st1).audioPL = st1.audioPL ∧
    (setLastUri s.isAudio s.uri st1).videoPL = st1.videoPL := by
  have hf := processStage_fail cfg s.isAudio s.idx s.uri s.dur st1 hname hfail
  constructor
  · unfold processSegmentList
    rw [hstages, runStages_append, hpre]
    simp only [runStages, hf]
  · obtain ⟨_, h2, h3, h4, _, _⟩ := setLastUri_fields s.isAudio s.uri st1
    exact ⟨h2, h3, h4⟩

/-- C4 witness: audio of index 1 commits, then the video decryption of index
1 fails; the cycle aborts with the structured segment error carrying the
state left by the three earlier stages. -/
theorem C4_abort_witness :
    processSegmentList videoFailCfg ["a/init.mp4", "a/1.mp4"]
        ["v/init.mp4", "v/1.mp4"] [0, 4] [0, 4] demoState =
      .error (.structured segErr,
        setLastUri false "v/1.mp4"
          ⟨["#EXTM3U", mkSeqLine ['0'], segmentTemplate 4 "1.mp4"], demoPL,
            [(true, 1)], some "a/1.mp4", some "v/init.mp4", false⟩) := by
  have h := C4_abort videoFailCfg ["a/init.mp4", "a/1.mp4"]
      ["v/init.mp4", "v/1.mp4"] [0, 4] [0, 4] demoState
      ⟨["#EXTM3U", mkSeqLine ['0'], segmentTemplate 4 "1.mp4"], demoPL,
        [(true, 1)], some "a/1.mp4", some "v/init.mp4", false⟩
      [⟨true, 0, "a/init.mp4", 0⟩, ⟨false, 0, "v/init.mp4", 0⟩,
        ⟨true, 1, "a/1.mp4", 4⟩]
      [] ⟨false, 1, "v/1.mp4", 4⟩
      (by decide) (by rfl) (by decide) (Or.inr (by decide))
  exact h.1

/-- C4 counterexample: in the same run the failure is raised while
processing segment index 1, yet the committed log at the abort contains the
audio entry `(true, 1)` for that very segment — contradicting the claim that
no playlist entry or committed media file is produced for the failing
segment index. -/
theorem C4_counterexample :
    cycleFailure (processSegmentList videoFailCfg ["a/init.mp4", "a/1.mp4"]
        ["v/init.mp4", "v/1.mp4"] [0, 4] [0, 4] demoState) =
      some (.structured segErr) ∧
    (true, 1) ∈ cycleCommitted (processSegmentList videoFailCfg
        ["a/init.mp4", "a/1.mp4"] ["v/init.mp4", "v/1.mp4"] [0, 4] [0, 4]
        demoState) := by
  constructor
  · decide
  · decide

/-- C5 (amended): the merge/decrypt/commit-versus-skip decision of a stage
is determined by the segment's file name (the last URI path component), not
by its list position: a stage whose file name is `init.mp4` is only
downloaded and merely records its URI, while a stage with any other file
name — at any index, index 0 included — is merged, decrypted and committed
to the playlist when its merge, decryption and append succeed.  The claimed
position-based behaviour holds only under the convention that exactly the
list head is named `init.mp4`. -/
theorem C5_commit_by_name (cfg : CycleCfg) (t : Bool) (i : Nat) (uri : String)
    (dur : Int) (st : CycleState) :
    (lastComponent uri = initFile →
      processStage cfg t i uri dur st = .ok (setLastUri t uri st)) ∧
    (lastComponent uri ≠ initFile → cfg.mergeOk t i = true →
      cfg.decryptOk t i = true →
      ∀ pl', appendSegment cfg.maxSegmentNum (trackPL t (setLastUri t uri st))
          (segmentTemplate dur (stripExt (lastComponent uri) ++ ".mp4"))
          = some pl' →
        processStage cfg t i uri dur st =
          .ok { setTrackPL t pl' (setLastUri t uri st) with
                  committed := (setLastUri t uri st).committed ++ [(t, i)] }) :=
  ⟨fun hn => processStage_init cfg t i uri dur st hn,
   fun hn hm hd pl' happ => processStage_commit cfg t i uri dur st hn hm hd pl' happ⟩

/-- C5 witness: a stage named `init.mp4` only records its URI; a stage named
`1.mp4` commits its entry and result file. -/
theorem C5_commit_by_name_witness :
    processStage demoCfg true 0 "a/init.mp4" 0 demoState =
      .ok (setLastUri true "a/init.mp4" demoState) ∧
    processStage demoCfg true 1 "a/1.mp4" 4 demoState =
      .ok { setTrackPL true (demoPL ++ [segmentTemplate 4 "1.mp4"])
              (setLastUri true "a/1.mp4" demoState) with
              committed := [(true, 1)] } := by
  constructor
  · exact (C5_commit_by_name demoCfg true 0 "a/init.mp4" 0 demoState).1 (by decide)
  · exact (C5_commit_by_name demoCfg true 1 "a/1.mp4" 4 demoState).2
      (by decide) rfl rfl _ (by decide)

/-- C5 counterexample: with both lists `["d/header.mp4", "d/init.mp4"]` the
element at index 0 (named `header.mp4`) IS merged, decrypted and committed,
and the element at index 1 (named `init.mp4`) is NOT — the exact opposite of
the claimed position-determined behaviour, because the code tests the file
name, not the list position. -/
theorem C5_counterexample :
    cycleCommitted (processSegmentList demoCfg ["d/header.mp4", "d/init.mp4"]
        ["d/header.mp4", "d/init.mp4"] [0, 4] [0, 4] demoState) =
      [(true, 0), (false, 0)] ∧
    cycleFailure (processSegmentList demoCfg ["d/header.mp4", "d/init.mp4"]
        ["d/header.mp4", "d/init.mp4"] [0, 4] [0, 4] demoState) = none := by
  constructor
  · decide
  · decide

/-- C7 (amended): a cycle that completes without error returns per track the
URI of the LAST ELEMENT ITERATED of that track's aligned list (none when the
aligned list is empty) — the last-URI locals are assigned at the top of each
stage, before and regardless of commit, so when a track's aligned list ends
with (or consists only of) an element named `init.mp4`, the returned URI is
that of a segment that was never committed. -/
theorem C7_token (cfg : CycleCfg) (aU vU : List String) (aD vD : List Int)
    (st : CycleState) (tok : Option String × Option String) (st' : CycleState)
    (h : processSegmentList cfg aU vU aD vD st = .ok (tok, st')) :
    tok.1 = (alignTracks aU vU aD vD).1.getLast? ∧
    tok.2 = (alignTracks aU vU aD vD).2.1.getLast? := by
  unfold processSegmentList at h
  cases hr : runStages cfg (alignedStages aU vU aD vD) (resetCycle st) with
  | error e =>
    rw [hr] at h
    exact Except.noConfusion h
  | ok st₁ =>
    rw [hr] at h
    injection h with h'
    obtain ⟨htok, _⟩ := (Prod.mk.injEq _ _ _ _).mp h'
    obtain ⟨_, ha, hv⟩ :=
      runStages_ok_tracked cfg (alignedStages aU vU aD vD) (resetCycle st) st₁ hr
    subst htok
    constructor
    · show st₁.lastAudio = _
      rw [ha]
      show lastUriAfter true (alignedStages aU vU aD vD) none = _
      unfold alignedStages
      rw [lastUriAfter_stagesN]
      simpa using getD_last_eq_getLast? (alignTracks aU vU aD vD).1
    · show st₁.lastVideo = _
      rw [hv]
      show lastUriAfter false (alignedStages aU vU aD vD) none = _
      unfold alignedStages
      rw [lastUriAfter_stagesN]
      have h6 := C6_align_amended aU vU aD vD
      have hlen : (alignTracks aU vU aD vD).1.length
          = (alignTracks aU vU aD vD).2.1.length := h6.2
      rw [hlen]
      simpa using getD_last_eq_getLast? (alignTracks aU vU aD vD).2.1

/-- C7 witness: an error-free run over `["d/header.mp4", "d/init.mp4"]` per
track returns the last element of each aligned list. -/
theorem C7_token_witness :
    (some "d/init.mp4" : Option String) =
      (alignTracks ["d/header.mp4", "d/init.mp4"] ["d/header.mp4", "d/init.mp4"]
        [0, 4] [0, 4]).1.getLast? := by
  have h := C7_token demoCfg ["d/header.mp4", "d/init.mp4"]
      ["d/header.mp4", "d/init.mp4"] [0, 4] [0, 4] demoState
      (some "d/init.mp4", some "d/init.mp4")
      ⟨["#EXTM3U", mkSeqLine ['0'], segmentTemplate 0 "header.mp4"],
        ["#EXTM3U", mkSeqLine ['0'], segmentTemplate 0 "header.mp4"],
        [(true, 0), (false, 0)], some "d/init.mp4", some "d/init.mp4", true⟩
      (by rfl)
  exact h.1

/-- C7 counterexample: with aligned lists consisting only of the init
segment, the cycle completes without error, commits nothing, and yet returns
`some "a/init.mp4"` — the URI of the uncommitted init segment — instead of
null, contradicting the claim that the returned URI is always that of a
committed segment (null when the track processed nothing). -/
theorem C7_counterexample :
    cycleToken (processSegmentList demoCfg ["a/init.mp4"] ["a/init.mp4"]
        [0] [0] demoState) =
      some (some "a/init.mp4", some "a/init.mp4") ∧
    cycleCommitted (processSegmentList demoCfg ["a/init.mp4"] ["a/init.mp4"]
        [0] [0] demoState) = [] := by
  constructor
  · decide
  · decide

/-- C9 (amended): the scratch download/merge subdirectories are cleared
exactly when the cycle completes without error; the cleanup (lines 315-319)
sits after the processing loop with no try/finally, so a cycle aborted by a
thrown failure leaves the scratch directories untouched. -/
theorem C9_cleanup (cfg : CycleCfg) (aU vU : List String) (aD vD : List Int)
    (st : CycleState) :
    (∀ tok st', processSegmentList cfg aU vU aD vD st = .ok (tok, st') →
      st'.cleaned = true) ∧
    (∀ f st', processSegmentList cfg aU vU aD vD st = .error (f, st') →
      st'.cleaned = false) := by
  constructor
  · intro tok st' h
    unfold processSegmentList at h
    cases hr : runStages cfg (alignedStages aU vU aD vD) (resetCycle st) with
    | error e =>
      rw [hr] at h
      exact Except.noConfusion h
    | ok st₁ =>
      rw [hr] at h
      injection h with h'
      obtain ⟨_, hst⟩ := (Prod.mk.injEq _ _ _ _).mp h'
      rw [← hst]
  · intro f st' h
    unfold processSegmentList at h
    cases hr : runStages cfg (alignedStages aU vU aD vD) (resetCycle st) with
    | error e =>
      rw [hr] at h
      injection h with h'
      rw [h'] at hr
      have := runStages_error_cleaned cfg (alignedStages aU vU aD vD)
        (resetCycle st) f st' hr
      simpa [resetCycle] using this
    | ok st₁ =>
      rw [hr] at h
      exact Except.noConfusion h

/-- C9 witness: an error-free run ends with the scratch directories cleared;
an aborted run (merge failure on the very first stage) ends with them not
cleared. -/
theorem C9_cleanup_witness :
    (⟨demoPL, demoPL, [], some "a/init.mp4", some "a/init.mp4",
        true⟩ : CycleState).cleaned = true ∧
    (⟨demoPL, demoPL, [], some "a/1.mp4", none, false⟩ : CycleState).cleaned
      = false := by
  constructor
  · exact (C9_cleanup demoCfg ["a/init.mp4"] ["a/init.mp4"] [0] [0]
      demoState).1 (some "a/init.mp4", some "a/init.mp4")
      ⟨demoPL, demoPL, [], some "a/init.mp4", some "a/init.mp4", true⟩ (by rfl)
  · exact (C9_cleanup mergeFailCfg ["a/1.mp4"] ["v/1.mp4"] [4] [4]
      demoState).2 (.structured segErr)
      ⟨demoPL, demoPL, [], some "a/1.mp4", none, false⟩ (by rfl)

/-- C9 counterexample: a cycle aborted by the fatal segment-manipulation
error (merge failure on its first media segment) terminates with the scratch
directories NOT cleared, contradicting the claim that the clearing happens
unconditionally even on an aborted cycle. -/
theorem C9_counterexample :
    cycleFailure (processSegmentList mergeFailCfg ["a/1.mp4"] ["v/1.mp4"]
        [4] [4] demoState) = some (.structured segErr) ∧
    (stateOf (processSegmentList mergeFailCfg ["a/1.mp4"] ["v/1.mp4"]
        [4] [4] demoState)).cleaned = false := by
  constructor
  · decide
  · decide

end SuperParser
